import Mathlib

/-!
# Verification of the bizmanage-cli change-detection and synchronization core

This file is a shallow embedding, in Lean 4, of the hash-cache-driven
synchronization core of the `bizmanage-cli` repository:

* `HashCacheService` (`src/services/hash-cache.ts`): the in-memory hash
  cache, the conditional writers `writeFileIfChanged` / `writeJSONIfChanged`,
  and the change classifier `getChanges`;
* `PushService.pushChangedFiles` (`src/lib/src/services/push.ts`): the push
  loop that transmits each changed file and advances its cache entry only on
  success;
* `ProjectStructureService` (`src/services/project-structure.ts`): the pull
  writers `writeFields`, `writeObjects`, `writeBackendScripts`,
  `writeReports`, `writePages` and the name sanitizer `sanitizeName`;
* the `pull` command (`src/lib/src/commands/pull.ts`): the per-category
  sequencing of a pull run.

Modelling conventions:

* The content digest (SHA-256 in the source) is an abstract parameter
  `hash : String → String`; the code only ever compares digests for
  equality, so every theorem below is proved for an arbitrary digest
  function.  Witnesses instantiate `hash` with the identity function.
* JavaScript objects used as string-keyed maps (`cache.hashes`, the file
  system) are modelled as association lists `List (String × String)` with
  unique keys maintained by `assocSet`.
* Paths are the project-relative POSIX paths the cache keys use; the
  deterministic `path.relative`/`path.join` plumbing is not re-modelled.
* `fs-extra`'s `writeJSON` appends a trailing newline; the source's
  `writeJSONIfChanged` therefore hashes `JSON.stringify(data) + "\n"`.  The
  serialized JSON body is modelled as the string `body`, and the bytes that
  reach the disk as `body ++ "\n"`.
* `fs.ensureDir` has no observable effect in a path-to-content map model
  and is dropped.
-/

namespace BizSync

/-- First-match lookup in an association list; models reading a property of
a JS object used as a map (the object invariantly has unique keys). -/
def assocLookup : List (String × String) → String → Option String
  | [], _ => none
  | (k, v) :: rest, p => if k = p then some v else assocLookup rest p

/-- Sets `k` to `v`, replacing an existing binding; models `obj[k] = v` on a
JS object used as a map. -/
def assocSet : List (String × String) → String → String → List (String × String)
  | [], k, v => [(k, v)]
  | (k', v') :: rest, k, v =>
      if k' = k then (k, v) :: rest else (k', v') :: assocSet rest k v

/-- Model of JS `Array.prototype.startsWith`-style prefix test on char
lists (used for `cachedPath.startsWith('src/')`). -/
def startsWithList : List Char → List Char → Bool
  | _, [] => true
  | [], _ :: _ => false
  | c :: cs, d :: ds => c = d && startsWithList cs ds

/-- Model of JS `String.prototype.startsWith`. -/
def startsWithStr (s pre : String) : Bool :=
  startsWithList s.toList pre.toList

/-- Occurrence test of `sub` in `l` at any position. -/
def hasSubList : List Char → List Char → Bool
  | [], sub => sub.isEmpty
  | c :: cs, sub => startsWithList (c :: cs) sub || hasSubList cs sub

/-- Model of JS `String.prototype.includes`. -/
def includesSubstr (s sub : String) : Bool :=
  hasSubList s.toList sub.toList

/-- Model of JS `String.prototype.endsWith`. -/
def endsWithStr (s suf : String) : Bool :=
  startsWithList s.toList.reverse suf.toList.reverse

/-- The mutable state a project's conditional writers touch: the live file
tree (path → content), the in-memory hash cache (`cache.hashes`: path →
digest), and how many times the cache has been persisted with `save()`. -/
structure ProjState where
  fs : List (String × String)
  hashes : List (String × String)
  saveCount : Nat
deriving Repr, DecidableEq

/-- `HashCacheService.shouldWriteFile`: returns `false` iff the cached
digest for `relPath` equals the digest of `content` (source lines 58-74). -/
def shouldWriteFile (hash : String → String) (hashes : List (String × String))
    (relPath content : String) : Bool :=
  match assocLookup hashes relPath with
  | some cached => if cached = hash content then false else true
  | none => true

/-- `HashCacheService.updateHash`: unconditionally records the digest of
`content` for `relPath` (source lines 79-88). -/
def updateHash (hash : String → String) (hashes : List (String × String))
    (relPath content : String) : List (String × String) :=
  assocSet hashes relPath (hash content)

/-- `HashCacheService.writeFileIfChanged` (source lines 94-112): writes and
records the digest only when `shouldWriteFile` says so; returns whether a
write happened together with the new state. -/
def writeFileIfChanged (hash : String → String) (st : ProjState)
    (relPath content : String) : Bool × ProjState :=
  if shouldWriteFile hash st.hashes relPath content then
    (true, { st with fs := assocSet st.fs relPath content,
                     hashes := updateHash hash st.hashes relPath content })
  else
    (false, st)

/-- `HashCacheService.writeJSONIfChanged` (source lines 118-140): `body`
models `JSON.stringify(data, null, spaces)`; the hashed content and the
bytes written by `fs.writeJSON` both carry the trailing newline. -/
def writeJSONIfChanged (hash : String → String) (st : ProjState)
    (relPath body : String) : Bool × ProjState :=
  let content := body ++ "\n"
  if shouldWriteFile hash st.hashes relPath content then
    (true, { st with fs := assocSet st.fs relPath content,
                     hashes := updateHash hash st.hashes relPath content })
  else
    (false, st)

/-- `HashCacheService.save`: persists the in-memory cache; in the model we
only record that a persist happened. -/
def saveCache (st : ProjState) : ProjState :=
  { st with saveCount := st.saveCount + 1 }

/-! ## The change classifier `getChanges` (source lines 181-280) -/

/-- Per-file classification outcome inside `getChanges`' first loop. -/
inductive FileClass where
  | isNew
  | isChanged
  | isSame
  | unreadable
deriving Repr, DecidableEq

/-- The classification the source performs for one enumerated relative
path: read the file, digest it, compare against the cache (source lines
240-259; a failed read is logged and skipped). -/
def classifyFile (hash : String → String) (hashes : List (String × String))
    (read : String → Option String) (relPath : String) : FileClass :=
  match read relPath with
  | none => .unreadable
  | some content =>
    match assocLookup hashes relPath with
    | none => .isNew
    | some cached => if cached = hash content then .isSame else .isChanged

/-- The change report built by `getChanges`.  The source's buckets are
records mapping category name to path array; here each bucket is the
flattened list of `(category, path)` pairs in push order, which carries the
same per-category grouping. -/
structure ChangeReport where
  changed : List (String × String)
  new : List (String × String)
  deleted : List (String × String)
  totalChanged : Nat
  totalNew : Nat
  totalDeleted : Nat
deriving Repr, DecidableEq

/-- The empty report `getChanges` starts from (source lines 191-196). -/
def emptyReport : ChangeReport :=
  { changed := [], new := [], deleted := [],
    totalChanged := 0, totalNew := 0, totalDeleted := 0 }

/-- Flattens `filesByType` in `Object.entries` order into `(category,
path)` pairs, the iteration order of the classification loop. -/
def flattenFiles (filesByType : List (String × List String)) :
    List (String × String) :=
  filesByType.flatMap (fun tf => tf.2.map (fun p => (tf.1, p)))

/-- The first loop of `getChanges` (source lines 236-261): classify every
enumerated `(category, path)` pair into `new` / `changed`, bumping the
matching total in lockstep. -/
def classifyLoop (hash : String → String) (hashes : List (String × String))
    (read : String → Option String) :
    List (String × String) → ChangeReport → ChangeReport
  | [], acc => acc
  | (t, p) :: rest, acc =>
    let acc' :=
      match classifyFile hash hashes read p with
      | .isNew =>
          { acc with new := acc.new ++ [(t, p)], totalNew := acc.totalNew + 1 }
      | .isChanged =>
          { acc with changed := acc.changed ++ [(t, p)],
                     totalChanged := acc.totalChanged + 1 }
      | .isSame => acc
      | .unreadable => acc
    classifyLoop hash hashes read rest acc'

/-- Category attribution for a deleted cached path, by substring
inspection with `'objects'` as the default (source lines 267-271). -/
def detectDeletedType (p : String) : String :=
  if includesSubstr p "/backend/" then "backend"
  else if includesSubstr p "/reports/" then "reports"
  else if includesSubstr p "/pages/" then "pages"
  else "objects"

/-- The second loop of `getChanges` (source lines 263-277): every cached
path under `src/` that the enumeration did not produce is deleted. -/
def deletedLoop (current : List String) :
    List String → ChangeReport → ChangeReport
  | [], acc => acc
  | p :: rest, acc =>
    let acc' :=
      if !current.contains p && startsWithStr p "src/" then
        { acc with deleted := acc.deleted ++ [(detectDeletedType p, p)],
                   totalDeleted := acc.totalDeleted + 1 }
      else acc
    deletedLoop current rest acc'

/-- `HashCacheService.getChanges` over an already-enumerated tree:
`filesByType` is the scan result per category, `read` the file reader. -/
def getChanges (hash : String → String) (hashes : List (String × String))
    (filesByType : List (String × List String))
    (read : String → Option String) : ChangeReport :=
  let pairs := flattenFiles filesByType
  let r1 := classifyLoop hash hashes read pairs emptyReport
  deletedLoop (pairs.map Prod.snd) (hashes.map Prod.fst) r1

/-! ## The directory scan feeding `getChanges` (source lines 213-234)

`scanDir` recurses into subdirectories and collects every regular file
except the one named `.gitignore`; the four category subtrees of `src/`
are scanned with their category name. -/

/-- One directory entry as `fs.readdir(..., { withFileTypes: true })`
reports it: a regular file or a directory with its children. -/
inductive Entry where
  | file (name : String)
  | dir (name : String) (children : List Entry)

mutual

/-- Relative paths produced by `scanDir` for a single entry under the
directory whose relative path is `pfx`. -/
def scanEntry (pfx : String) : Entry → List String
  | .file name => if name = ".gitignore" then [] else [pfx ++ "/" ++ name]
  | .dir name children => scanEntries (pfx ++ "/" ++ name) children

/-- Relative paths produced by `scanDir` over a directory's entries, in
enumeration order. -/
def scanEntries (pfx : String) : List Entry → List String
  | [] => []
  | e :: rest => scanEntry pfx e ++ scanEntries pfx rest

end

mutual

/-- Every regular file below an entry, with its relative path and its own
file name, no filtering. -/
def allEntry (pfx : String) : Entry → List (String × String)
  | .file name => [(pfx ++ "/" ++ name, name)]
  | .dir name children => allEntries (pfx ++ "/" ++ name) children

/-- Every regular file below a list of entries, with path and name. -/
def allEntries (pfx : String) : List Entry → List (String × String)
  | [] => []
  | e :: rest => allEntry pfx e ++ allEntries pfx rest

end

/-- `getChanges` composed with its own scan of the four category subtrees
of `src/` (source lines 229-234): the enumeration it classifies is exactly
what `scanDir` produced. -/
def getChangesScan (hash : String → String) (hashes : List (String × String))
    (read : String → Option String)
    (objects backend reports pages : List Entry) : ChangeReport :=
  getChanges hash hashes
    [("objects", scanEntries "src/objects" objects),
     ("backend", scanEntries "src/backend" backend),
     ("reports", scanEntries "src/reports" reports),
     ("pages", scanEntries "src/pages" pages)] read

/-! ## The push loop (`PushService`, `src/lib/src/services/push.ts`) -/

/-- One file of a push batch, as `getChangedFiles` assembles it (push.ts
lines 23-29); `relativePath` keys the cache, `content` is what was read
from disk and what `updateHash` records after a successful transmission. -/
structure PFile where
  relativePath : String
  type : String
  content : String
deriving Repr, DecidableEq

/-- One entry of `PushResult.errors` (push.ts lines 15-19). -/
structure PushError where
  file : String
  type : String
  message : String
deriving Repr, DecidableEq

/-- The result a push invocation reports (push.ts lines 8-13). -/
structure PushResult where
  success : Bool
  pushedFiles : List String
  skippedFiles : List String
  errors : List PushError
deriving Repr, DecidableEq

/-- The result every push invocation starts from (push.ts lines 496-501). -/
def emptyPushResult : PushResult :=
  { success := true, pushedFiles := [], skippedFiles := [], errors := [] }

/-- The per-file loop of `pushChangedFiles` (push.ts lines 514-534): `send`
models the remote transmission (`pushCustomization`), returning `.ok` or
throwing with a message.  On success the relative path is appended to
`pushedFiles` and the cache entry advanced; on failure `success` is
cleared, one error recorded, and the loop continues. -/
def pushFiles (hash : String → String) (send : PFile → Except String Unit) :
    List PFile → PushResult × List (String × String) →
    PushResult × List (String × String)
  | [], acc => acc
  | f :: rest, (res, cache) =>
    let acc' :=
      match send f with
      | .ok _ =>
          ({ res with pushedFiles := res.pushedFiles ++ [f.relativePath] },
           updateHash hash cache f.relativePath f.content)
      | .error msg =>
          ({ res with success := false,
                      errors := res.errors ++
                        [{ file := f.relativePath, type := f.type,
                           message := msg }] }, cache)
    pushFiles hash send rest acc'

/-- `PushService.detectType` (push.ts lines 44-67): maps a path to a
customization type by shape inspection, `none` when unrecognized. -/
def detectType (p : String) : Option String :=
  if includesSubstr p "/objects/" && endsWithStr p "/definition.json" then
    some "object"
  else if includesSubstr p "/objects/" && includesSubstr p "/actions/" then
    some "action"
  else if includesSubstr p "/objects/" && includesSubstr p "/fields/" then
    some "field"
  else if includesSubstr p "/backend/" then some "backend-script"
  else if includesSubstr p "/reports/" then some "report"
  else if includesSubstr p "/pages/" then some "page"
  else none

/-- `PushService.getChangedFiles` (push.ts lines 72-118): runs the change
classifier, then load every `changed` and `new` path whose type is
recognized, in that order. -/
def getChangedFiles (hash : String → String)
    (hashes : List (String × String))
    (filesByType : List (String × List String))
    (read : String → Option String) : List PFile :=
  let changes := getChanges hash hashes filesByType read
  (changes.changed ++ changes.new).filterMap (fun tp =>
    match detectType tp.2, read tp.2 with
    | some ty, some content =>
        some { relativePath := tp.2, type := ty, content := content }
    | _, _ => none)

/-- `PushService.pushChangedFiles` (push.ts lines 495-549): collect the
changed files, push each, save the cache once at the end. -/
def pushChangedFiles (hash : String → String)
    (send : PFile → Except String Unit)
    (hashes : List (String × String))
    (filesByType : List (String × List String))
    (read : String → Option String) :
    PushResult × List (String × String) :=
  pushFiles hash send (getChangedFiles hash hashes filesByType read)
    (emptyPushResult, hashes)

/-! ## `sanitizeName` (`src/services/project-structure.ts` lines 893-899)

The chain lower-case, dash every character outside `[a-z0-9]`, collapse
dash runs, strip a leading and a trailing dash is modelled pass by pass
over char lists.  The
lower-casing uses `Char.toLower` (the ASCII table; both the code model and
the spec model below share it, so the theorems compare the sanitization
structure, not Unicode case folding). -/

/-- A character the regex class `[a-z0-9]` keeps after lower-casing. -/
def lowerKeep (c : Char) : Bool := c.isLower || c.isDigit

/-- One step of `replace(/[^a-z0-9]/g, '-')`. -/
def dashify (c : Char) : Char := if lowerKeep c then c else '-'

mutual

/-- The dash-run collapse pass: copy characters, collapsing runs of `-`. -/
def cdMain : List Char → List Char
  | [] => []
  | c :: rest => if c = '-' then '-' :: cdSkip rest else c :: cdMain rest

/-- State of the collapse right after a `-` was emitted: further dashes
of the same run are dropped. -/
def cdSkip : List Char → List Char
  | [] => []
  | c :: rest => if c = '-' then cdSkip rest else c :: cdMain rest

end

/-- Removes one leading dash if present (one arm of `replace(/^-|-$/g,
'')`, which deletes each of its at most two matches once). -/
def dropOneDash (l : List Char) : List Char :=
  match l with
  | c :: rest => if c = '-' then rest else c :: rest
  | [] => []

/-- `replace(/^-|-$/g, '')`: one dash stripped from each end. -/
def stripEnds (l : List Char) : List Char :=
  (dropOneDash ((dropOneDash l).reverse)).reverse

/-- `ProjectStructureService.sanitizeName`, the composition of the four
source passes. -/
def sanitizeName (s : String) : String :=
  String.mk (stripEnds (cdMain ((s.toList.map Char.toLower).map dashify)))

mutual

/-- Spec-side collapse: every maximal run of non-alphanumeric characters
becomes a single hyphen (the spec's description, applied after
lower-casing). -/
def collapseSpec : List Char → List Char
  | [] => []
  | c :: rest =>
      if lowerKeep c then c :: collapseSpec rest else '-' :: afterDash rest

/-- Spec-side collapse inside a non-alphanumeric run whose hyphen was
already emitted. -/
def afterDash : List Char → List Char
  | [] => []
  | c :: rest => if lowerKeep c then c :: collapseSpec rest else afterDash rest

end

/-- Dash test as a Bool predicate. -/
def dashBool (c : Char) : Bool := c = '-'

/-- Spec-side strip: all leading and all trailing hyphens removed. -/
def stripAll (l : List Char) : List Char :=
  ((l.dropWhile dashBool).reverse.dropWhile dashBool).reverse

/-- Modelled from the spec's words (§4.4): "sanitized: lower-cased,
non-alphanumeric runs collapsed to a single hyphen, leading/trailing
hyphens stripped" — the comparison point for the refinement claim about
`sanitizeName`. -/
def sanitizeNameSpec (s : String) : String :=
  String.mk (stripAll (collapseSpec (s.toList.map Char.toLower)))

/-! ## Pull writers (`ProjectStructureService`)

Per-item serialization (`JSON.stringify` inside `writeJSONIfChanged`) is
modelled as an `Except String String` carried by the item: `.ok body` is
the serialized JSON body, `.error e` a throw with message `e`.  Each
writer's single `try` block wraps its whole item loop, so a throw aborts
the loop and lands in the category-level `catch`. -/

/-- The per-category result a pull writer returns
(`project-structure.ts` lines 200-205). -/
structure PullResult where
  success : Bool
  itemCount : Nat
  errors : List String
  warnings : List String
deriving Repr, DecidableEq

/-- One field item of `writeFields` (lines 299-321): name resolution uses
`internal_name`, then `name`, then `'unknown'`. -/
structure FieldItem where
  internal_name : Option String
  name : Option String
  ser : Except String String
deriving Repr

/-- The sanitized file stem `writeFields` derives for a field. -/
def fieldFileName (f : FieldItem) : String :=
  sanitizeName (f.internal_name.getD (f.name.getD "unknown"))

/-- The loop body of `writeFields` inside its `try`: one conditional JSON
write per item, `itemCount` incremented after each completed item; a
serialization throw aborts with the message and the state reached so far. -/
def writeFieldsGo (hash : String → String) (fieldsDir : String) :
    List FieldItem → ProjState → Nat →
    Except (String × ProjState × Nat) (ProjState × Nat)
  | [], st, n => .ok (st, n)
  | f :: rest, st, n =>
    match f.ser with
    | .error e => .error (e, st, n)
    | .ok body =>
        let st' := (writeJSONIfChanged hash st
          (fieldsDir ++ "/" ++ fieldFileName f ++ ".json") body).2
        writeFieldsGo hash fieldsDir rest st' (n + 1)

/-- `ProjectStructureService.writeFields` (lines 283-337): on success the
cache is saved and `success` is true; on a throw the catch records the one
message, leaves `success` false and does not save. -/
def writeFields (hash : String → String) (objectName : String)
    (fields : List FieldItem) (st : ProjState) : PullResult × ProjState :=
  match writeFieldsGo hash
      ("src/objects/" ++ sanitizeName objectName ++ "/fields") fields st 0 with
  | .ok (st', n) =>
      ({ success := true, itemCount := n, errors := [], warnings := [] },
       saveCache st')
  | .error (e, st', n) =>
      ({ success := false, itemCount := n, errors := [e], warnings := [] },
       st')

/-- `getActionFileExtension` (lines 901-912). -/
def getActionFileExtension (t : String) : String :=
  if t = "javascript" then ".js"
  else if t = "configuration" then ".json"
  else if t = "http" then ".json"
  else if t = "link" then ".json"
  else ".txt"

/-- One action of an object in `writeObjects` (lines 378-401). -/
structure ActionItem where
  name : String
  code : Option String
  metaType : String
  metaSer : Except String String
deriving Repr

/-- One object of `writeObjects` (lines 342-352). -/
structure ObjectItem where
  name : String
  defSer : Except String String
  actions : List ActionItem
deriving Repr

/-- The actions loop of `writeObjects`: optional code file then metadata
file per action, `itemCount` incremented per action. -/
def writeActionsGo (hash : String → String) (actionsDir : String) :
    List ActionItem → ProjState → Nat →
    Except (String × ProjState × Nat) (ProjState × Nat)
  | [], st, n => .ok (st, n)
  | a :: rest, st, n =>
    let st1 :=
      match a.code with
      | some code =>
          (writeFileIfChanged hash st
            (actionsDir ++ "/" ++ sanitizeName a.name ++
              getActionFileExtension a.metaType) code).2
      | none => st
    match a.metaSer with
    | .error e => .error (e, st1, n)
    | .ok body =>
        let st2 := (writeJSONIfChanged hash st1
          (actionsDir ++ "/" ++ sanitizeName a.name ++ ".meta.json") body).2
        writeActionsGo hash actionsDir rest st2 (n + 1)

/-- The objects loop of `writeObjects`: definition file, then the object's
actions, then `itemCount` incremented for the object itself. -/
def writeObjectsGo (hash : String → String) :
    List ObjectItem → ProjState → Nat →
    Except (String × ProjState × Nat) (ProjState × Nat)
  | [], st, n => .ok (st, n)
  | o :: rest, st, n =>
    match o.defSer with
    | .error e => .error (e, st, n)
    | .ok body =>
        let objectDir := "src/objects/" ++ sanitizeName o.name
        let st1 := (writeJSONIfChanged hash st
          (objectDir ++ "/definition.json") body).2
        match writeActionsGo hash (objectDir ++ "/actions") o.actions st1 n with
        | .error r => .error r
        | .ok (st2, n2) => writeObjectsGo hash rest st2 (n2 + 1)

/-- `ProjectStructureService.writeObjects` (lines 342-416). -/
def writeObjects (hash : String → String) (objects : List ObjectItem)
    (st : ProjState) : PullResult × ProjState :=
  match writeObjectsGo hash objects st 0 with
  | .ok (st', n) =>
      ({ success := true, itemCount := n, errors := [], warnings := [] },
       saveCache st')
  | .error (e, st', n) =>
      ({ success := false, itemCount := n,
         errors := ["Failed to write objects: " ++ e], warnings := [] }, st')

/-- One item of a two-file category writer (`writeBackendScripts`,
`writeReports`, `writePages` are structurally identical: a plain content
file plus a `.meta.json` metadata file per item). -/
structure CatItem where
  name : String
  code : String
  metaSer : Except String String
deriving Repr

/-- The shared loop of the three two-file category writers. -/
def writeCategoryGo (hash : String → String) (dir codeExt : String) :
    List CatItem → ProjState → Nat →
    Except (String × ProjState × Nat) (ProjState × Nat)
  | [], st, n => .ok (st, n)
  | it :: rest, st, n =>
    let st1 := (writeFileIfChanged hash st
      (dir ++ "/" ++ sanitizeName it.name ++ codeExt) it.code).2
    match it.metaSer with
    | .error e => .error (e, st1, n)
    | .ok body =>
        let st2 := (writeJSONIfChanged hash st1
          (dir ++ "/" ++ sanitizeName it.name ++ ".meta.json") body).2
        writeCategoryGo hash dir codeExt rest st2 (n + 1)

/-- A two-file category writer: loop then save-and-succeed, or catch the
one thrown message with its prefix. -/
def writeCategory (hash : String → String) (dir codeExt errPre : String)
    (items : List CatItem) (st : ProjState) : PullResult × ProjState :=
  match writeCategoryGo hash dir codeExt items st 0 with
  | .ok (st', n) =>
      ({ success := true, itemCount := n, errors := [], warnings := [] },
       saveCache st')
  | .error (e, st', n) =>
      ({ success := false, itemCount := n, errors := [errPre ++ e],
         warnings := [] }, st')

/-- `writeBackendScripts` (lines 421-467). -/
def writeBackendScripts (hash : String → String) (items : List CatItem)
    (st : ProjState) : PullResult × ProjState :=
  writeCategory hash "src/backend" ".js" "Failed to write backend scripts: "
    items st

/-- `writeReports` (lines 472-518). -/
def writeReports (hash : String → String) (items : List CatItem)
    (st : ProjState) : PullResult × ProjState :=
  writeCategory hash "src/reports" ".sql" "Failed to write reports: " items st

/-- `writePages` (lines 523-569). -/
def writePages (hash : String → String) (items : List CatItem)
    (st : ProjState) : PullResult × ProjState :=
  writeCategory hash "src/pages" ".html" "Failed to write pages: " items st

/-- The category sequencing of `pullCommand`
(`src/lib/src/commands/pull.ts` lines 131-233): objects are processed only
when the fetched table list is non-empty; a failed category result exits
the run; otherwise backend scripts, reports and pages follow in order.
Returns the final state and whether the run completed. -/
def pullRun (hash : String → String) (objects : List ObjectItem)
    (scripts reports pages : List CatItem) (st : ProjState) :
    ProjState × Bool :=
  let s1 :=
    if objects.isEmpty then (st, true)
    else
      let r := writeObjects hash objects st
      (r.2, r.1.success)
  if s1.2 = false then (s1.1, false)
  else
    let r2 := writeBackendScripts hash scripts s1.1
    if r2.1.success = false then (r2.2, false)
    else
      let r3 := writeReports hash reports r2.2
      if r3.1.success = false then (r3.2, false)
      else
        let r4 := writePages hash pages r3.2
        if r4.1.success = false then (r4.2, false)
        else (r4.2, true)

/-! ## Sequences of conditional writes (for the idempotence and
pull-convergence claims) -/

/-- One conditional write as a pull performs it: a plain file write or a
JSON write. -/
inductive WriteOp where
  | wfile (p c : String)
  | wjson (p body : String)
deriving Repr, DecidableEq

/-- The path a write targets. -/
def opPath : WriteOp → String
  | .wfile p _ => p
  | .wjson p _ => p

/-- The exact bytes the write would put on disk (JSON writes carry the
trailing newline). -/
def opContent : WriteOp → String
  | .wfile _ c => c
  | .wjson _ body => body ++ "\n"

/-- Applies one conditional write to the state. -/
def applyWrite (hash : String → String) (st : ProjState) : WriteOp → ProjState
  | .wfile p c => (writeFileIfChanged hash st p c).2
  | .wjson p body => (writeJSONIfChanged hash st p body).2

/-- Applies a sequence of conditional writes in order. -/
def applyWrites (hash : String → String) :
    List WriteOp → ProjState → ProjState
  | [], st => st
  | op :: rest, st => applyWrites hash rest (applyWrite hash st op)

/-- A project before any pull: empty tree, empty cache. -/
def initialState : ProjState := { fs := [], hashes := [], saveCount := 0 }

/-- Bool form of "this `(category, path)` pair classifies as `c`", used to
phrase the classification loop's buckets as filters. -/
def classedAs (hash : String → String) (hashes : List (String × String))
    (read : String → Option String) (c : FileClass)
    (tp : String × String) : Bool :=
  decide (classifyFile hash hashes read tp.2 = c)

/-- Bool form of the deleted-path condition of `getChanges`' second loop. -/
def deletedCond (current : List String) (p : String) : Bool :=
  !current.contains p && startsWithStr p "src/"

/-- The serialized body an `Except`-modelled serialization produced (used
only to state which bytes the completed items of an aborted category loop
wrote). -/
def serBody : Except String String → String
  | .ok b => b
  | .error _ => ""

/-- The cache/disk agreement a sequence of conditional writes from a fresh
project maintains: every file on disk has its digest cached, and every
cached path is on disk. -/
def CacheSync (hash : String → String) (st : ProjState) : Prop :=
  (∀ p c, assocLookup st.fs p = some c →
      assocLookup st.hashes p = some (hash c)) ∧
  (∀ p, p ∈ st.hashes.map Prod.fst → p ∈ st.fs.map Prod.fst)

/-! ## Lemmas about the association-list map model -/

theorem assocLookup_set_self (l : List (String × String)) (k v : String) :
    assocLookup (assocSet l k v) k = some v := by
  induction l with
  | nil => simp [assocSet, assocLookup]
  | cons kv rest ih =>
      obtain ⟨k', v'⟩ := kv
      by_cases h : k' = k
      · simp [assocSet, h, assocLookup]
      · simp [assocSet, h, assocLookup, ih]

theorem assocLookup_set_ne (l : List (String × String)) (k v k' : String)
    (h : k' ≠ k) :
    assocLookup (assocSet l k v) k' = assocLookup l k' := by
  induction l with
  | nil => simp [assocSet, assocLookup, Ne.symm h]
  | cons kv rest ih =>
      obtain ⟨k₀, v₀⟩ := kv
      by_cases h0 : k₀ = k
      · subst h0
        simp [assocSet, assocLookup, Ne.symm h]
      · simp [assocSet, h0, assocLookup, ih]

theorem mem_keys_iff (l : List (String × String)) (p : String) :
    p ∈ l.map Prod.fst ↔ ∃ v, assocLookup l p = some v := by
  induction l with
  | nil => simp [assocLookup]
  | cons kv rest ih =>
      obtain ⟨k, v⟩ := kv
      by_cases h : k = p
      · subst h
        simp [assocLookup]
      · simp [assocLookup, h, Ne.symm h, ih]

/-! ## Characterization of the two loops of `getChanges` -/

theorem classifyLoop_eq (hash : String → String)
    (hashes : List (String × String)) (read : String → Option String)
    (pairs : List (String × String)) (acc : ChangeReport) :
    classifyLoop hash hashes read pairs acc =
      { changed := acc.changed ++
          pairs.filter (classedAs hash hashes read .isChanged),
        new := acc.new ++ pairs.filter (classedAs hash hashes read .isNew),
        deleted := acc.deleted,
        totalChanged := acc.totalChanged +
          (pairs.filter (classedAs hash hashes read .isChanged)).length,
        totalNew := acc.totalNew +
          (pairs.filter (classedAs hash hashes read .isNew)).length,
        totalDeleted := acc.totalDeleted } := by
  induction pairs generalizing acc with
  | nil => simp [classifyLoop]
  | cons tp rest ih =>
      obtain ⟨t, p⟩ := tp
      rcases hcf : classifyFile hash hashes read p with _ | _ | _ | _ <;>
        simp only [classifyLoop, hcf, ih, List.filter_cons, classedAs,
          decide_eq_true_eq] <;>
        simp [ChangeReport.mk.injEq, List.append_assoc] <;>
        omega

theorem deletedLoop_eq (current : List String) (keys : List String)
    (acc : ChangeReport) :
    deletedLoop current keys acc =
      { acc with
        deleted := acc.deleted ++
          (keys.filter (deletedCond current)).map
            (fun p => (detectDeletedType p, p)),
        totalDeleted := acc.totalDeleted +
          (keys.filter (deletedCond current)).length } := by
  induction keys generalizing acc with
  | nil => simp [deletedLoop]
  | cons p rest ih =>
      simp only [deletedLoop]
      by_cases hc : (!current.contains p && startsWithStr p "src/") = true
      · have hcd : deletedCond current p = true := by
          simpa only [deletedCond] using hc
        rw [if_pos hc, ih, List.filter_cons, if_pos hcd]
        simp [ChangeReport.mk.injEq, List.append_assoc]
        omega
      · have hcd : ¬(deletedCond current p = true) := by
          simpa only [deletedCond] using hc
        rw [if_neg hc, ih, List.filter_cons, if_neg hcd]

/-- Closed form of `getChanges`: the buckets are filters of the enumeration
and of the cache keys, and each total is its bucket's length. -/
theorem getChanges_eq (hash : String → String)
    (hashes : List (String × String))
    (filesByType : List (String × List String))
    (read : String → Option String) :
    getChanges hash hashes filesByType read =
      { changed := (flattenFiles filesByType).filter
          (classedAs hash hashes read .isChanged),
        new := (flattenFiles filesByType).filter
          (classedAs hash hashes read .isNew),
        deleted := ((hashes.map Prod.fst).filter
          (deletedCond ((flattenFiles filesByType).map Prod.snd))).map
            (fun p => (detectDeletedType p, p)),
        totalChanged := ((flattenFiles filesByType).filter
          (classedAs hash hashes read .isChanged)).length,
        totalNew := ((flattenFiles filesByType).filter
          (classedAs hash hashes read .isNew)).length,
        totalDeleted := ((hashes.map Prod.fst).filter
          (deletedCond ((flattenFiles filesByType).map Prod.snd))).length } := by
  simp [getChanges, classifyLoop_eq, deletedLoop_eq, emptyReport,
    List.length_map]

/-- **C1.**  For every project state, `getChanges` classifies each
enumerated tracked file per-path against the cache: a path with no cached
digest lands under `new` (in its category); a path whose cached digest
differs from the digest of its current content lands under `changed`; a
path whose cached digest equals the current digest appears in no bucket;
every cached path under `src/` absent from the enumeration lands under
`deleted` with its category inferred from the path; and each of the three
totals equals the cardinality of its bucket summed across categories. -/
theorem getChanges_classification (hash : String → String)
    (hashes : List (String × String))
    (filesByType : List (String × List String))
    (read : String → Option String) :
    (∀ t p c, (t, p) ∈ flattenFiles filesByType → read p = some c →
        assocLookup hashes p = none →
        (t, p) ∈ (getChanges hash hashes filesByType read).new) ∧
    (∀ t p c d, (t, p) ∈ flattenFiles filesByType → read p = some c →
        assocLookup hashes p = some d → d ≠ hash c →
        (t, p) ∈ (getChanges hash hashes filesByType read).changed) ∧
    (∀ t p c, (t, p) ∈ flattenFiles filesByType → read p = some c →
        assocLookup hashes p = some (hash c) →
        p ∉ ((getChanges hash hashes filesByType read).changed.map Prod.snd) ∧
        p ∉ ((getChanges hash hashes filesByType read).new.map Prod.snd) ∧
        p ∉ ((getChanges hash hashes filesByType read).deleted.map Prod.snd)) ∧
    (∀ p, p ∈ hashes.map Prod.fst →
        p ∉ (flattenFiles filesByType).map Prod.snd →
        startsWithStr p "src/" = true →
        (detectDeletedType p, p) ∈
          (getChanges hash hashes filesByType read).deleted) ∧
    ((getChanges hash hashes filesByType read).totalChanged =
        (getChanges hash hashes filesByType read).changed.length ∧
     (getChanges hash hashes filesByType read).totalNew =
        (getChanges hash hashes filesByType read).new.length ∧
     (getChanges hash hashes filesByType read).totalDeleted =
        (getChanges hash hashes filesByType read).deleted.length) := by
  rw [getChanges_eq]
  refine ⟨?_, ?_, ?_, ?_, ?_, ?_, ?_⟩
  · intro t p c hmem hread hlk
    exact List.mem_filter.mpr ⟨hmem, by
      simp [classedAs, classifyFile, hread, hlk]⟩
  · intro t p c d hmem hread hlk hne
    exact List.mem_filter.mpr ⟨hmem, by
      simp [classedAs, classifyFile, hread, hlk, hne]⟩
  · intro t p c hmem hread hlk
    refine ⟨?_, ?_, ?_⟩
    · intro hp
      obtain ⟨⟨t', p'⟩, hmemf, hps⟩ := List.mem_map.mp hp
      obtain ⟨-, hcl⟩ := List.mem_filter.mp hmemf
      cases hps
      simp [classedAs, classifyFile, hread, hlk] at hcl
    · intro hp
      obtain ⟨⟨t', p'⟩, hmemf, hps⟩ := List.mem_map.mp hp
      obtain ⟨-, hcl⟩ := List.mem_filter.mp hmemf
      cases hps
      simp [classedAs, classifyFile, hread, hlk] at hcl
    · intro hp
      obtain ⟨q, hq, hqs⟩ := List.mem_map.mp hp
      obtain ⟨q', hq', hq's⟩ := List.mem_map.mp hq
      obtain ⟨hq'mem, hq'cond⟩ := List.mem_filter.mp hq'
      cases hq's
      cases hqs
      have hcur : q' ∈ (flattenFiles filesByType).map Prod.snd :=
        List.mem_map.mpr ⟨(t, q'), hmem, rfl⟩
      simp [deletedCond, List.elem_iff, hcur] at hq'cond
  · intro p hkeys hcur hsrc
    refine List.mem_map.mpr ⟨p, List.mem_filter.mpr ⟨hkeys, ?_⟩, rfl⟩
    simp [deletedCond, hsrc, List.elem_iff, hcur]
  · rfl
  · rfl
  · simp [List.length_map]

/-- Witness for `getChanges_classification`: a concrete project with one
changed file, one new file and one deleted cached path, each landing in its
bucket. -/
theorem getChanges_classification_witness :
    ("objects", "src/objects/a.json") ∈
      (getChanges id
        [("src/objects/a.json", "OLD"), ("src/backend/gone.js", "G")]
        [("objects", ["src/objects/a.json", "src/objects/b.json"])]
        (fun p => if p = "src/objects/a.json" then some "NEW"
                  else if p = "src/objects/b.json" then some "B"
                  else none)).changed ∧
    ("objects", "src/objects/b.json") ∈
      (getChanges id
        [("src/objects/a.json", "OLD"), ("src/backend/gone.js", "G")]
        [("objects", ["src/objects/a.json", "src/objects/b.json"])]
        (fun p => if p = "src/objects/a.json" then some "NEW"
                  else if p = "src/objects/b.json" then some "B"
                  else none)).new ∧
    ("backend", "src/backend/gone.js") ∈
      (getChanges id
        [("src/objects/a.json", "OLD"), ("src/backend/gone.js", "G")]
        [("objects", ["src/objects/a.json", "src/objects/b.json"])]
        (fun p => if p = "src/objects/a.json" then some "NEW"
                  else if p = "src/objects/b.json" then some "B"
                  else none)).deleted := by
  refine ⟨?_, ?_, ?_⟩
  · exact (getChanges_classification id _ _ _).2.1 "objects"
      "src/objects/a.json" "NEW" "OLD" (by decide) (by decide) (by decide)
      (by decide)
  · exact (getChanges_classification id _ _ _).1 "objects"
      "src/objects/b.json" "B" (by decide) (by decide) (by decide)
  · exact (getChanges_classification id _ _ _).2.2.2.1 "src/backend/gone.js"
      (by decide) (by decide) (by decide)

/-! ## Idempotence of the conditional writers -/

theorem shouldWriteFile_eq_false_iff (hash : String → String)
    (hashes : List (String × String)) (p C : String) :
    shouldWriteFile hash hashes p C = false ↔
      assocLookup hashes p = some (hash C) := by
  unfold shouldWriteFile
  rcases h : assocLookup hashes p with _ | cached
  · simp
  · by_cases hc : cached = hash C <;> simp [hc]

theorem writeFile_lookup (hash : String → String) (st : ProjState)
    (p C : String) :
    assocLookup ((writeFileIfChanged hash st p C).2).hashes p =
      some (hash C) := by
  unfold writeFileIfChanged
  by_cases h : shouldWriteFile hash st.hashes p C = true
  · simp [h, updateHash, assocLookup_set_self]
  · rw [Bool.not_eq_true] at h
    simp [h, (shouldWriteFile_eq_false_iff hash st.hashes p C).mp h]

theorem writeJSON_lookup (hash : String → String) (st : ProjState)
    (p body : String) :
    assocLookup ((writeJSONIfChanged hash st p body).2).hashes p =
      some (hash (body ++ "\n")) := by
  unfold writeJSONIfChanged
  by_cases h : shouldWriteFile hash st.hashes p (body ++ "\n") = true
  · simp [h, updateHash, assocLookup_set_self]
  · rw [Bool.not_eq_true] at h
    simp [h, (shouldWriteFile_eq_false_iff hash st.hashes p (body ++ "\n")).mp h]

/-- A conditional write whose `shouldWriteFile` check fails is a pure
no-op. -/
theorem writeFileIfChanged_of_false (hash : String → String)
    (st : ProjState) (p C : String)
    (h : shouldWriteFile hash st.hashes p C = false) :
    writeFileIfChanged hash st p C = (false, st) := by
  unfold writeFileIfChanged
  simp [h]

/-- A conditional JSON write whose `shouldWriteFile` check fails is a pure
no-op. -/
theorem writeJSONIfChanged_of_false (hash : String → String)
    (st : ProjState) (p body : String)
    (h : shouldWriteFile hash st.hashes p (body ++ "\n") = false) :
    writeJSONIfChanged hash st p body = (false, st) := by
  unfold writeJSONIfChanged
  simp [h]

/-- A write to another path, or a write of the same bytes, keeps the
cached digest of `p` intact. -/
theorem applyWrite_preserves (hash : String → String) (st : ProjState)
    (p C : String) (op : WriteOp)
    (hp : assocLookup st.hashes p = some (hash C))
    (hop : opPath op ≠ p ∨ opContent op = C) :
    assocLookup ((applyWrite hash st op)).hashes p = some (hash C) := by
  rcases op with ⟨q, c⟩ | ⟨q, body⟩
  · simp only [applyWrite, opPath, opContent] at hop ⊢
    unfold writeFileIfChanged
    rcases hop with hqp | hcc
    · by_cases h : shouldWriteFile hash st.hashes q c = true <;>
        simp [h, updateHash, assocLookup_set_ne _ _ _ _ (Ne.symm hqp), hp]
    · subst hcc
      by_cases hqp : q = p
      · subst hqp
        by_cases h : shouldWriteFile hash st.hashes q c = true <;>
          simp [h, updateHash, assocLookup_set_self, hp]
      · by_cases h : shouldWriteFile hash st.hashes q c = true <;>
          simp [h, updateHash, assocLookup_set_ne _ _ _ _ (Ne.symm hqp), hp]
  · simp only [applyWrite, opPath, opContent] at hop ⊢
    unfold writeJSONIfChanged
    rcases hop with hqp | hcc
    · by_cases h : shouldWriteFile hash st.hashes q (body ++ "\n") = true <;>
        simp [h, updateHash, assocLookup_set_ne _ _ _ _ (Ne.symm hqp), hp]
    · subst hcc
      by_cases hqp : q = p
      · subst hqp
        by_cases h : shouldWriteFile hash st.hashes q (body ++ "\n") = true <;>
          simp [h, updateHash, assocLookup_set_self, hp]
      · by_cases h : shouldWriteFile hash st.hashes q (body ++ "\n") = true <;>
          simp [h, updateHash, assocLookup_set_ne _ _ _ _ (Ne.symm hqp), hp]

theorem applyWrites_preserves (hash : String → String) (p C : String)
    (ops : List WriteOp) (st : ProjState)
    (hp : assocLookup st.hashes p = some (hash C))
    (hops : ∀ op ∈ ops, opPath op ≠ p ∨ opContent op = C) :
    assocLookup (applyWrites hash ops st).hashes p = some (hash C) := by
  induction ops generalizing st with
  | nil => simpa [applyWrites] using hp
  | cons op rest ih =>
      simp only [applyWrites]
      exact ih (applyWrite hash st op)
        (applyWrite_preserves hash st p C op hp
          (hops op (List.mem_cons_self op rest)))
        (fun o ho => hops o (List.mem_cons_of_mem op ho))

/-- **C2.**  After a `writeFileIfChanged` (or `writeJSONIfChanged`) call
for path `p` with content `C`, `shouldWriteFile` for the same path and
content returns `false`, and a second identical conditional-write call
returns `false` without touching the state; this persists through any
further conditional writes that target other paths or record the same
content for `p` (i.e. until the cache is cleared or different content is
recorded there). -/
theorem conditionalWrite_idempotent (hash : String → String)
    (st : ProjState) (p C body : String) :
    shouldWriteFile hash ((writeFileIfChanged hash st p C).2).hashes p C
        = false ∧
    writeFileIfChanged hash ((writeFileIfChanged hash st p C).2) p C =
        (false, (writeFileIfChanged hash st p C).2) ∧
    shouldWriteFile hash ((writeJSONIfChanged hash st p body).2).hashes p
        (body ++ "\n") = false ∧
    writeJSONIfChanged hash ((writeJSONIfChanged hash st p body).2) p body =
        (false, (writeJSONIfChanged hash st p body).2) ∧
    (∀ ops : List WriteOp,
      (∀ op ∈ ops, opPath op ≠ p ∨ opContent op = C) →
      shouldWriteFile hash
        (applyWrites hash ops ((writeFileIfChanged hash st p C).2)).hashes
        p C = false) := by
  have h1 : shouldWriteFile hash
      ((writeFileIfChanged hash st p C).2).hashes p C = false :=
    (shouldWriteFile_eq_false_iff _ _ _ _).mpr (writeFile_lookup hash st p C)
  have h3 : shouldWriteFile hash
      ((writeJSONIfChanged hash st p body).2).hashes p (body ++ "\n")
      = false :=
    (shouldWriteFile_eq_false_iff _ _ _ _).mpr (writeJSON_lookup hash st p body)
  refine ⟨h1, ?_, h3, ?_, ?_⟩
  · exact writeFileIfChanged_of_false hash _ p C h1
  · exact writeJSONIfChanged_of_false hash _ p body h3
  · intro ops hops
    exact (shouldWriteFile_eq_false_iff _ _ _ _).mpr
      (applyWrites_preserves hash p C ops _ (writeFile_lookup hash st p C)
        hops)

/-- Witness for `conditionalWrite_idempotent`: writing `X` to
`src/a.json` into a fresh project, then re-writing it (also after an
unrelated write to `src/b.json`), is a no-op. -/
theorem conditionalWrite_idempotent_witness :
    writeFileIfChanged id
        ((writeFileIfChanged id initialState "src/a.json" "X").2)
        "src/a.json" "X" =
      (false, (writeFileIfChanged id initialState "src/a.json" "X").2) ∧
    shouldWriteFile id
        (applyWrites id [WriteOp.wfile "src/b.json" "Y"]
          ((writeFileIfChanged id initialState "src/a.json" "X").2)).hashes
        "src/a.json" "X" = false :=
  ⟨(conditionalWrite_idempotent id initialState "src/a.json" "X" "").2.1,
   (conditionalWrite_idempotent id initialState "src/a.json" "X" "").2.2.2.2
     [WriteOp.wfile "src/b.json" "Y"] (by decide)⟩

/-! ## A fresh pull converges: re-running getChanges reports nothing -/

theorem mem_keys_set (l : List (String × String)) (k v p : String) :
    p ∈ (assocSet l k v).map Prod.fst ↔ p = k ∨ p ∈ l.map Prod.fst := by
  by_cases hpk : p = k
  · subst hpk
    rw [mem_keys_iff]
    exact iff_of_true ⟨v, assocLookup_set_self l p v⟩ (Or.inl rfl)
  · rw [mem_keys_iff, assocLookup_set_ne l k v p hpk, ← mem_keys_iff]
    simp [hpk]

theorem cacheSync_initial (hash : String → String) :
    CacheSync hash initialState := by
  constructor
  · intro p c h
    simp [initialState, assocLookup] at h
  · intro p h
    simp [initialState] at h

theorem cacheSync_applyWrite (hash : String → String) (st : ProjState)
    (op : WriteOp) (h : CacheSync hash st) :
    CacheSync hash (applyWrite hash st op) := by
  obtain ⟨h1, h2⟩ := h
  have step : ∀ q c : String,
      CacheSync hash { st with fs := assocSet st.fs q c,
                               hashes := updateHash hash st.hashes q c } := by
    intro q c
    constructor
    · intro p c' hfs
      by_cases hpq : p = q
      · subst hpq
        rw [assocLookup_set_self] at hfs
        have hcc : c = c' := Option.some.inj hfs
        subst hcc
        simpa [updateHash] using assocLookup_set_self st.hashes p (hash c)
      · rw [assocLookup_set_ne st.fs q c p hpq] at hfs
        simpa [updateHash, assocLookup_set_ne st.hashes q (hash c) p hpq]
          using h1 p c' hfs
    · intro p hp
      simp only [updateHash, mem_keys_set] at hp ⊢
      rcases hp with hp | hp
      · exact Or.inl hp
      · exact Or.inr (h2 p hp)
  rcases op with ⟨q, c⟩ | ⟨q, body⟩
  · simp only [applyWrite]
    by_cases hw : shouldWriteFile hash st.hashes q c = true
    · unfold writeFileIfChanged
      simpa [hw] using step q c
    · rw [Bool.not_eq_true] at hw
      rw [writeFileIfChanged_of_false hash st q c hw]
      exact ⟨h1, h2⟩
  · simp only [applyWrite]
    by_cases hw : shouldWriteFile hash st.hashes q (body ++ "\n") = true
    · unfold writeJSONIfChanged
      simpa [hw] using step q (body ++ "\n")
    · rw [Bool.not_eq_true] at hw
      rw [writeJSONIfChanged_of_false hash st q body hw]
      exact ⟨h1, h2⟩

theorem cacheSync_applyWrites (hash : String → String) (ops : List WriteOp)
    (st : ProjState) (h : CacheSync hash st) :
    CacheSync hash (applyWrites hash ops st) := by
  induction ops generalizing st with
  | nil => simpa [applyWrites] using h
  | cons op rest ih =>
      exact ih (applyWrite hash st op) (cacheSync_applyWrite hash st op h)

/-- **C3.**  After a pull performs any sequence of conditional writes into
a fresh project and the enumeration matches the files now on disk, an
immediately following `getChanges` reports empty `changed`/`new`/`deleted`
buckets and zero totals; and the digest `writeJSONIfChanged` records on a
real write is the digest of the exact bytes that end up on disk, trailing
newline included. -/
theorem fresh_pull_then_getChanges_empty (hash : String → String)
    (ops : List WriteOp) (filesByType : List (String × List String))
    (henum : ∀ q, q ∈ (flattenFiles filesByType).map Prod.snd ↔
        q ∈ (applyWrites hash ops initialState).fs.map Prod.fst) :
    ((getChanges hash (applyWrites hash ops initialState).hashes filesByType
        (assocLookup (applyWrites hash ops initialState).fs)).changed = [] ∧
     (getChanges hash (applyWrites hash ops initialState).hashes filesByType
        (assocLookup (applyWrites hash ops initialState).fs)).new = [] ∧
     (getChanges hash (applyWrites hash ops initialState).hashes filesByType
        (assocLookup (applyWrites hash ops initialState).fs)).deleted = [] ∧
     (getChanges hash (applyWrites hash ops initialState).hashes filesByType
        (assocLookup (applyWrites hash ops initialState).fs)).totalChanged
        = 0 ∧
     (getChanges hash (applyWrites hash ops initialState).hashes filesByType
        (assocLookup (applyWrites hash ops initialState).fs)).totalNew = 0 ∧
     (getChanges hash (applyWrites hash ops initialState).hashes filesByType
        (assocLookup (applyWrites hash ops initialState).fs)).totalDeleted
        = 0) ∧
    (∀ (st : ProjState) (p body : String),
      (writeJSONIfChanged hash st p body).1 = true →
      assocLookup ((writeJSONIfChanged hash st p body).2).fs p =
          some (body ++ "\n") ∧
      assocLookup ((writeJSONIfChanged hash st p body).2).hashes p =
          some (hash (body ++ "\n"))) := by
  constructor
  · obtain ⟨hsync1, hsync2⟩ :=
      cacheSync_applyWrites hash ops initialState (cacheSync_initial hash)
    have hsame : ∀ tp ∈ flattenFiles filesByType,
        classifyFile hash (applyWrites hash ops initialState).hashes
          (assocLookup (applyWrites hash ops initialState).fs) tp.2 =
          FileClass.isSame := by
      intro tp htp
      have hq : tp.2 ∈ (applyWrites hash ops initialState).fs.map Prod.fst :=
        (henum tp.2).mp (List.mem_map.mpr ⟨tp, htp, rfl⟩)
      obtain ⟨c, hc⟩ := (mem_keys_iff _ _).mp hq
      simp [classifyFile, hc, hsync1 tp.2 c hc]
    have hch : (flattenFiles filesByType).filter
        (classedAs hash (applyWrites hash ops initialState).hashes
          (assocLookup (applyWrites hash ops initialState).fs)
          .isChanged) = [] := by
      rw [List.filter_eq_nil_iff]
      intro tp htp
      simp [classedAs, hsame tp htp]
    have hnw : (flattenFiles filesByType).filter
        (classedAs hash (applyWrites hash ops initialState).hashes
          (assocLookup (applyWrites hash ops initialState).fs)
          .isNew) = [] := by
      rw [List.filter_eq_nil_iff]
      intro tp htp
      simp [classedAs, hsame tp htp]
    have hdel : ((applyWrites hash ops initialState).hashes.map
        Prod.fst).filter
        (deletedCond ((flattenFiles filesByType).map Prod.snd)) = [] := by
      rw [List.filter_eq_nil_iff]
      intro p hp
      have : p ∈ (flattenFiles filesByType).map Prod.snd :=
        (henum p).mpr (hsync2 p hp)
      simp [deletedCond, List.elem_iff, this]
    rw [getChanges_eq]
    simp [hch, hnw, hdel]
  · intro st p body hwrote
    unfold writeJSONIfChanged at hwrote ⊢
    by_cases hw : shouldWriteFile hash st.hashes p (body ++ "\n") = true
    · simp [hw, updateHash, assocLookup_set_self]
    · rw [Bool.not_eq_true] at hw
      simp [hw] at hwrote

/-- Witness for `fresh_pull_then_getChanges_empty`: one JSON file pulled
into a fresh project, then re-scanned — nothing is reported. -/
theorem fresh_pull_then_getChanges_empty_witness :
    (getChanges id
      (applyWrites id
        [WriteOp.wjson "src/objects/a/definition.json" "null"]
        initialState).hashes
      [("objects", ["src/objects/a/definition.json"]), ("backend", []),
       ("reports", []), ("pages", [])]
      (assocLookup (applyWrites id
        [WriteOp.wjson "src/objects/a/definition.json" "null"]
        initialState).fs)).changed = [] ∧
    (getChanges id
      (applyWrites id
        [WriteOp.wjson "src/objects/a/definition.json" "null"]
        initialState).hashes
      [("objects", ["src/objects/a/definition.json"]), ("backend", []),
       ("reports", []), ("pages", [])]
      (assocLookup (applyWrites id
        [WriteOp.wjson "src/objects/a/definition.json" "null"]
        initialState).fs)).totalNew = 0 := by
  have h := fresh_pull_then_getChanges_empty id
    [WriteOp.wjson "src/objects/a/definition.json" "null"]
    [("objects", ["src/objects/a/definition.json"]), ("backend", []),
     ("reports", []), ("pages", [])]
    (by
      intro q
      have h1 : (flattenFiles
          [("objects", ["src/objects/a/definition.json"]), ("backend", []),
           ("reports", []), ("pages", [])]).map Prod.snd =
          ["src/objects/a/definition.json"] := by decide
      have h2 : (applyWrites id
          [WriteOp.wjson "src/objects/a/definition.json" "null"]
          initialState).fs.map Prod.fst =
          ["src/objects/a/definition.json"] := by decide
      rw [h1, h2])
  exact ⟨h.1.1, h.1.2.2.2.2.1⟩

/-! ## The push loop: all outcomes reported, cache advanced only on
success -/

/-- Closed form of the push loop: pushed paths and errors accumulate as a
filter and a filterMap of the batch, `success` is cleared iff some item
failed, `skippedFiles` is never touched, and the cache is advanced exactly
at the successfully transmitted files. -/
theorem pushFiles_eq (hash : String → String)
    (send : PFile → Except String Unit) (files : List PFile)
    (res : PushResult) (cache : List (String × String)) :
    pushFiles hash send files (res, cache) =
      ({ success := res.success && files.all (fun f =>
            match send f with | .ok _ => true | .error _ => false),
         pushedFiles := res.pushedFiles ++
           (files.filter (fun f =>
              match send f with | .ok _ => true | .error _ => false)).map
             PFile.relativePath,
         skippedFiles := res.skippedFiles,
         errors := res.errors ++ files.filterMap (fun f =>
           match send f with
           | .ok _ => none
           | .error m => some { file := f.relativePath, type := f.type,
                                message := m }) },
       files.foldl (fun c f =>
         match send f with
         | .ok _ => updateHash hash c f.relativePath f.content
         | .error _ => c) cache) := by
  induction files generalizing res cache with
  | nil => simp [pushFiles]
  | cons f rest ih =>
      rcases hsf : send f with u | m <;>
        simp [pushFiles, hsf, ih, List.filter_cons, List.filterMap_cons,
          PushResult.mk.injEq, List.append_assoc]

/-- Failures produce a `false` overall flag: `all` is `false` when one
element fails. -/
theorem all_sendOk_false (send : PFile → Except String Unit)
    (files : List PFile) (f : PFile) (m : String) (hf : f ∈ files)
    (hsend : send f = .error m) :
    files.all (fun g =>
      match send g with | .ok _ => true | .error _ => false) = false := by
  rw [List.all_eq_false]
  exact ⟨f, hf, by simp [hsend]⟩

/-- The cache is left alone at a path every matching batch member fails
at. -/
theorem pushFiles_cache_preserve (hash : String → String)
    (send : PFile → Except String Unit) (files : List PFile)
    (res : PushResult) (cache : List (String × String)) (p : String)
    (hfail : ∀ g ∈ files, g.relativePath = p → ∃ m, send g = .error m) :
    assocLookup (pushFiles hash send files (res, cache)).2 p =
      assocLookup cache p := by
  induction files generalizing res cache with
  | nil => simp [pushFiles]
  | cons g rest ih =>
      rcases hsg : send g with m | u
      · simp only [pushFiles, hsg]
        exact ih _ _ (fun o ho hop => hfail o (List.mem_cons_of_mem g ho) hop)
      · have hgp : g.relativePath ≠ p := by
          intro hgp
          obtain ⟨m, hm⟩ := hfail g (List.mem_cons_self g rest) hgp
          rw [hsg] at hm
          cases hm
        simp only [pushFiles, hsg]
        rw [ih _ _ (fun o ho hop => hfail o (List.mem_cons_of_mem g ho) hop)]
        exact assocLookup_set_ne cache g.relativePath _ p (Ne.symm hgp)

/-- **C4.**  If the transmission step throws for a file `f` of a push
batch (and `f` is the only batch member at its path), the cache entry for
`f` is not advanced, the failure is recorded as one `{file, type,
message}` entry, every other successfully transmitted file is still pushed
(processing continues), the run reports `success = false`, and a
subsequent change classification of `f`'s unchanged on-disk content still
yields `new` or `changed`. -/
theorem push_failure_retry_safe (hash : String → String)
    (send : PFile → Except String Unit) (files : List PFile)
    (cache : List (String × String)) (f : PFile) (m : String)
    (hf : f ∈ files) (hsend : send f = .error m)
    (huniq : ∀ g ∈ files, g.relativePath = f.relativePath → g = f) :
    assocLookup (pushFiles hash send files (emptyPushResult, cache)).2
        f.relativePath = assocLookup cache f.relativePath ∧
    ({ file := f.relativePath, type := f.type, message := m } : PushError) ∈
      (pushFiles hash send files (emptyPushResult, cache)).1.errors ∧
    (∀ g ∈ files, (∃ u, send g = .ok u) →
      g.relativePath ∈
        (pushFiles hash send files (emptyPushResult, cache)).1.pushedFiles) ∧
    (pushFiles hash send files (emptyPushResult, cache)).1.success = false ∧
    (∀ content : String,
      assocLookup cache f.relativePath ≠ some (hash content) →
      classifyFile hash (pushFiles hash send files (emptyPushResult, cache)).2
          (fun _ => some content) f.relativePath = FileClass.isNew ∨
      classifyFile hash (pushFiles hash send files (emptyPushResult, cache)).2
          (fun _ => some content) f.relativePath = FileClass.isChanged) := by
  have hpres : assocLookup
      (pushFiles hash send files (emptyPushResult, cache)).2 f.relativePath =
      assocLookup cache f.relativePath :=
    pushFiles_cache_preserve hash send files emptyPushResult cache
      f.relativePath
      (fun g hg hgp => (huniq g hg hgp) ▸ ⟨m, hsend⟩)
  refine ⟨hpres, ?_, ?_, ?_, ?_⟩
  · rw [pushFiles_eq]
    simp only [emptyPushResult, List.nil_append]
    exact List.mem_filterMap.mpr ⟨f, hf, by simp [hsend]⟩
  · intro g hg hok
    obtain ⟨u, hu⟩ := hok
    rw [pushFiles_eq]
    simp only [emptyPushResult, List.nil_append]
    exact List.mem_map.mpr ⟨g, List.mem_filter.mpr ⟨hg, by simp [hu]⟩, rfl⟩
  · rw [pushFiles_eq]
    simp [all_sendOk_false send files f m hf hsend]
  · intro content hne
    have hcl : classifyFile hash
        (pushFiles hash send files (emptyPushResult, cache)).2
        (fun _ => some content) f.relativePath =
        (match assocLookup cache f.relativePath with
         | none => FileClass.isNew
         | some cached =>
             if cached = hash content then FileClass.isSame
             else FileClass.isChanged) := by
      simp [classifyFile, hpres]
    rcases hlk : assocLookup cache f.relativePath with _ | d
    · rw [hcl, hlk]
      exact Or.inl rfl
    · have hd : d ≠ hash content := by
        intro hdc
        exact hne (by rw [hlk, hdc])
      rw [hcl, hlk]
      exact Or.inr (by simp [hd])

/-- Witness for `push_failure_retry_safe`: a three-file batch whose middle
file fails to transmit; the other two are pushed, the failure is recorded,
and the failed file still classifies as changed. -/
theorem push_failure_retry_safe_witness :
    ({ file := "src/backend/b.js", type := "backend-script",
       message := "boom" } : PushError) ∈
      (pushFiles id
        (fun f => if f.relativePath = "src/backend/b.js" then
            Except.error "boom" else Except.ok ())
        [{ relativePath := "src/backend/a.js", type := "backend-script",
           content := "A" },
         { relativePath := "src/backend/b.js", type := "backend-script",
           content := "B" },
         { relativePath := "src/backend/c.js", type := "backend-script",
           content := "C" }]
        (emptyPushResult, [("src/backend/b.js", "OLD")])).1.errors ∧
    (classifyFile id
        (pushFiles id
          (fun f => if f.relativePath = "src/backend/b.js" then
              Except.error "boom" else Except.ok ())
          [{ relativePath := "src/backend/a.js", type := "backend-script",
             content := "A" },
           { relativePath := "src/backend/b.js", type := "backend-script",
             content := "B" },
           { relativePath := "src/backend/c.js", type := "backend-script",
             content := "C" }]
          (emptyPushResult, [("src/backend/b.js", "OLD")])).2
        (fun _ => some "B") "src/backend/b.js" = FileClass.isNew ∨
     classifyFile id
        (pushFiles id
          (fun f => if f.relativePath = "src/backend/b.js" then
              Except.error "boom" else Except.ok ())
          [{ relativePath := "src/backend/a.js", type := "backend-script",
             content := "A" },
           { relativePath := "src/backend/b.js", type := "backend-script",
             content := "B" },
           { relativePath := "src/backend/c.js", type := "backend-script",
             content := "C" }]
          (emptyPushResult, [("src/backend/b.js", "OLD")])).2
        (fun _ => some "B") "src/backend/b.js" = FileClass.isChanged) := by
  have h := push_failure_retry_safe id
    (fun f => if f.relativePath = "src/backend/b.js" then
        Except.error "boom" else Except.ok ())
    [{ relativePath := "src/backend/a.js", type := "backend-script",
       content := "A" },
     { relativePath := "src/backend/b.js", type := "backend-script",
       content := "B" },
     { relativePath := "src/backend/c.js", type := "backend-script",
       content := "C" }]
    [("src/backend/b.js", "OLD")]
    { relativePath := "src/backend/b.js", type := "backend-script",
      content := "B" } "boom"
    (by decide) (by rfl) (by decide)
  exact ⟨h.2.1, h.2.2.2.2 "B" (by decide)⟩

theorem all_sendOk_eq_isEmpty (send : PFile → Except String Unit)
    (files : List PFile) :
    files.all (fun f =>
      match send f with | .ok _ => true | .error _ => false) =
    (files.filterMap (fun f =>
      match send f with
      | .ok _ => none
      | .error m => some ({ file := f.relativePath, type := f.type,
                            message := m } : PushError))).isEmpty := by
  induction files with
  | nil => rfl
  | cons f rest ih =>
      rcases hsf : send f with m | u <;>
        simp [hsf, ih, List.all_cons, List.filterMap_cons]

/-- **C7 (amended).**  A push invocation reports all outcomes: `success`
is exactly "no item failed" (`false` iff at least one error was recorded),
`pushedFiles` lists every successfully transmitted file's relative path,
`errors` carries one `{file, type, message}` entry per failed item — but
`skippedFiles` is always empty: already-up-to-date paths are excluded from
the batch by the change classifier and are never listed in the result. -/
theorem push_result_shape (hash : String → String)
    (send : PFile → Except String Unit)
    (hashes : List (String × String))
    (filesByType : List (String × List String))
    (read : String → Option String) :
    (pushChangedFiles hash send hashes filesByType read).1.success =
      (pushChangedFiles hash send hashes filesByType read).1.errors.isEmpty ∧
    (pushChangedFiles hash send hashes filesByType read).1.pushedFiles =
      ((getChangedFiles hash hashes filesByType read).filter (fun f =>
        match send f with | .ok _ => true | .error _ => false)).map
          PFile.relativePath ∧
    (pushChangedFiles hash send hashes filesByType read).1.errors =
      (getChangedFiles hash hashes filesByType read).filterMap (fun f =>
        match send f with
        | .ok _ => none
        | .error m => some { file := f.relativePath, type := f.type,
                             message := m }) ∧
    (pushChangedFiles hash send hashes filesByType read).1.skippedFiles
      = [] := by
  unfold pushChangedFiles
  rw [pushFiles_eq]
  simp [emptyPushResult, all_sendOk_eq_isEmpty]

/-- **C7 (counterexample).**  A project whose one tracked file
`src/backend/a.js` is already up-to-date (its cached digest matches its
content): the push invocation skips it — it is not pushed — yet
`skippedFiles` is empty, so the skipped already-up-to-date path is not
listed there, contrary to the claim. -/
theorem push_skippedFiles_cex :
    classifyFile id [("src/backend/a.js", "X")]
      (fun p => if p = "src/backend/a.js" then some "X" else none)
      "src/backend/a.js" = FileClass.isSame ∧
    (pushChangedFiles id (fun _ => Except.ok ())
      [("src/backend/a.js", "X")]
      [("objects", []), ("backend", ["src/backend/a.js"]),
       ("reports", []), ("pages", [])]
      (fun p => if p = "src/backend/a.js" then some "X"
                else none)).1.pushedFiles = [] ∧
    (pushChangedFiles id (fun _ => Except.ok ())
      [("src/backend/a.js", "X")]
      [("objects", []), ("backend", ["src/backend/a.js"]),
       ("reports", []), ("pages", [])]
      (fun p => if p = "src/backend/a.js" then some "X"
                else none)).1.skippedFiles = [] := by
  decide

/-! ## A pull category's item loop aborts at the first failing item -/

/-- The field-writing loop on a batch whose first `L1` items serialize and
whose next item `f` throws: the loop writes exactly `L1`'s files, counts
exactly `L1`, and aborts with `f`'s message — `L2` is never reached. -/
theorem writeFieldsGo_fail (hash : String → String) (dir : String)
    (L1 : List FieldItem) (f : FieldItem) (L2 : List FieldItem) (e : String)
    (st : ProjState) (n : Nat)
    (hok : ∀ g ∈ L1, ∃ b, g.ser = .ok b) (hf : f.ser = .error e) :
    writeFieldsGo hash dir (L1 ++ f :: L2) st n =
      .error (e,
        L1.foldl (fun s g => (writeJSONIfChanged hash s
          (dir ++ "/" ++ fieldFileName g ++ ".json") (serBody g.ser)).2) st,
        n + L1.length) := by
  induction L1 generalizing st n with
  | nil => simp [writeFieldsGo, hf]
  | cons g L1' ih =>
      obtain ⟨b, hb⟩ := hok g (List.mem_cons_self g L1')
      simp only [List.cons_append, writeFieldsGo, hb, List.append_eq]
      rw [ih _ _ (fun o ho => hok o (List.mem_cons_of_mem g ho))]
      simp [serBody, hb, Nat.add_assoc, Nat.add_comm, Nat.add_left_comm]

/-- **C5 (amended).**  During a pull category, a failing item's message is
recorded in the category result's error list, but processing of that
category stops at the failure: `success` is `false`, `itemCount` counts
only the items completed before the failure, and the items after the
failing one are not written (the final state is exactly the one the
preceding items produced; the cache is not saved). -/
theorem writeFields_failure_aborts (hash : String → String)
    (objectName : String) (L1 : List FieldItem) (f : FieldItem)
    (L2 : List FieldItem) (e : String) (st : ProjState)
    (hok : ∀ g ∈ L1, ∃ b, g.ser = .ok b) (hf : f.ser = .error e) :
    (writeFields hash objectName (L1 ++ f :: L2) st).1 =
      { success := false, itemCount := L1.length, errors := [e],
        warnings := [] } ∧
    (writeFields hash objectName (L1 ++ f :: L2) st).2 =
      L1.foldl (fun s g => (writeJSONIfChanged hash s
        ("src/objects/" ++ sanitizeName objectName ++ "/fields" ++ "/" ++
          fieldFileName g ++ ".json") (serBody g.ser)).2) st := by
  unfold writeFields
  rw [writeFieldsGo_fail hash _ L1 f L2 e st 0 hok hf]
  exact ⟨by simp, rfl⟩

/-- Witness for `writeFields_failure_aborts`: three fields, the middle one
failing to serialize. -/
theorem writeFields_failure_aborts_witness :
    (writeFields id "Cust"
      ([{ internal_name := some "f1", name := none,
          ser := Except.ok "1" }] ++
        { internal_name := some "f2", name := none,
          ser := Except.error "boom" } ::
        [{ internal_name := some "f3", name := none,
           ser := Except.ok "3" }]) initialState).1 =
      { success := false, itemCount := 1, errors := ["boom"],
        warnings := [] } :=
  (writeFields_failure_aborts id "Cust"
    [{ internal_name := some "f1", name := none, ser := Except.ok "1" }]
    { internal_name := some "f2", name := none, ser := Except.error "boom" }
    [{ internal_name := some "f3", name := none, ser := Except.ok "3" }]
    "boom" initialState
    (fun g hg => by
      rw [List.mem_singleton] at hg
      subst hg
      exact ⟨"1", rfl⟩)
    rfl).1

/-- **C5 (counterexample).**  A concrete `writeFields` batch of three
items whose second item throws: the failure is recorded, but the third
item is *not* written (its file is absent from the final tree), refuting
"the items after the failing one are still written". -/
theorem writeFields_continue_cex :
    (writeFields id "Cust"
      [{ internal_name := some "f1", name := none, ser := Except.ok "1" },
       { internal_name := some "f2", name := none,
         ser := Except.error "boom" },
       { internal_name := some "f3", name := none, ser := Except.ok "3" }]
      initialState).1 =
      { success := false, itemCount := 1, errors := ["boom"],
        warnings := [] } ∧
    assocLookup (writeFields id "Cust"
      [{ internal_name := some "f1", name := none, ser := Except.ok "1" },
       { internal_name := some "f2", name := none,
         ser := Except.error "boom" },
       { internal_name := some "f3", name := none, ser := Except.ok "3" }]
      initialState).2.fs "src/objects/cust/fields/f1.json" = some "1\n" ∧
    assocLookup (writeFields id "Cust"
      [{ internal_name := some "f1", name := none, ser := Except.ok "1" },
       { internal_name := some "f2", name := none,
         ser := Except.error "boom" },
       { internal_name := some "f3", name := none, ser := Except.ok "3" }]
      initialState).2.fs "src/objects/cust/fields/f3.json" = none := by
  decide

/-! ## How often a pull run persists the cache -/

theorem writeFileIfChanged_saveCount (hash : String → String)
    (st : ProjState) (p c : String) :
    (writeFileIfChanged hash st p c).2.saveCount = st.saveCount := by
  unfold writeFileIfChanged
  split <;> rfl

theorem writeJSONIfChanged_saveCount (hash : String → String)
    (st : ProjState) (p body : String) :
    (writeJSONIfChanged hash st p body).2.saveCount = st.saveCount := by
  unfold writeJSONIfChanged
  dsimp only
  split <;> rfl

/-- A two-file category loop whose serializations all succeed completes,
counting every item and never persisting the cache itself. -/
theorem writeCategoryGo_ok (hash : String → String) (dir codeExt : String)
    (items : List CatItem) (st : ProjState) (n : Nat)
    (hok : ∀ it ∈ items, ∃ b, it.metaSer = .ok b) :
    ∃ st', writeCategoryGo hash dir codeExt items st n =
        .ok (st', n + items.length) ∧ st'.saveCount = st.saveCount := by
  induction items generalizing st n with
  | nil => exact ⟨st, by simp [writeCategoryGo], rfl⟩
  | cons it rest ih =>
      obtain ⟨b, hb⟩ := hok it (List.mem_cons_self it rest)
      obtain ⟨st', hgo, hsc⟩ := ih
        ((writeJSONIfChanged hash
          ((writeFileIfChanged hash st
            (dir ++ "/" ++ sanitizeName it.name ++ codeExt) it.code).2)
          (dir ++ "/" ++ sanitizeName it.name ++ ".meta.json") b).2)
        (n + 1) (fun o ho => hok o (List.mem_cons_of_mem it ho))
      refine ⟨st', ?_, ?_⟩
      · simp only [writeCategoryGo, hb, hgo]
        congr 1
        simp [Nat.add_assoc, Nat.add_comm, Nat.add_left_comm]
      · rw [hsc, writeJSONIfChanged_saveCount, writeFileIfChanged_saveCount]

/-- A successful two-file category write saves the cache exactly once. -/
theorem writeCategory_success (hash : String → String)
    (dir codeExt errPre : String) (items : List CatItem) (st : ProjState)
    (hok : ∀ it ∈ items, ∃ b, it.metaSer = .ok b) :
    (writeCategory hash dir codeExt errPre items st).1.success = true ∧
    (writeCategory hash dir codeExt errPre items st).2.saveCount =
      st.saveCount + 1 := by
  obtain ⟨st', hgo, hsc⟩ := writeCategoryGo_ok hash dir codeExt items st 0 hok
  unfold writeCategory
  rw [hgo]
  exact ⟨rfl, by simp [saveCache, hsc]⟩

/-- The actions loop of `writeObjects` completes without persisting when
every action metadata serializes. -/
theorem writeActionsGo_ok (hash : String → String) (actionsDir : String)
    (actions : List ActionItem) (st : ProjState) (n : Nat)
    (hok : ∀ a ∈ actions, ∃ b, a.metaSer = .ok b) :
    ∃ st', writeActionsGo hash actionsDir actions st n =
        .ok (st', n + actions.length) ∧ st'.saveCount = st.saveCount := by
  induction actions generalizing st n with
  | nil => exact ⟨st, by simp [writeActionsGo], rfl⟩
  | cons a rest ih =>
      obtain ⟨b, hb⟩ := hok a (List.mem_cons_self a rest)
      have hsc1 : ∀ st₀ : ProjState,
          (match a.code with
           | some code =>
               (writeFileIfChanged hash st₀
                 (actionsDir ++ "/" ++ sanitizeName a.name ++
                   getActionFileExtension a.metaType) code).2
           | none => st₀).saveCount = st₀.saveCount := by
        intro st₀
        cases a.code with
        | some code => exact writeFileIfChanged_saveCount hash st₀ _ _
        | none => rfl
      obtain ⟨st', hgo, hsc⟩ := ih
        ((writeJSONIfChanged hash
          (match a.code with
           | some code =>
               (writeFileIfChanged hash st
                 (actionsDir ++ "/" ++ sanitizeName a.name ++
                   getActionFileExtension a.metaType) code).2
           | none => st)
          (actionsDir ++ "/" ++ sanitizeName a.name ++ ".meta.json") b).2)
        (n + 1) (fun o ho => hok o (List.mem_cons_of_mem a ho))
      refine ⟨st', ?_, ?_⟩
      · simp only [writeActionsGo, hb, hgo]
        congr 1
        simp [Nat.add_assoc, Nat.add_comm, Nat.add_left_comm]
      · rw [hsc, writeJSONIfChanged_saveCount, hsc1]

/-- The objects loop completes without persisting when every definition
and action metadata serializes. -/
theorem writeObjectsGo_ok (hash : String → String)
    (objects : List ObjectItem) (st : ProjState) (n : Nat)
    (hok : ∀ o ∈ objects, (∃ b, o.defSer = .ok b) ∧
        ∀ a ∈ o.actions, ∃ b, a.metaSer = .ok b) :
    ∃ st' n', writeObjectsGo hash objects st n = .ok (st', n') ∧
        st'.saveCount = st.saveCount := by
  induction objects generalizing st n with
  | nil => exact ⟨st, n, by simp [writeObjectsGo], rfl⟩
  | cons o rest ih =>
      obtain ⟨⟨b, hb⟩, hacts⟩ := hok o (List.mem_cons_self o rest)
      obtain ⟨st1, hgo1, hsc1⟩ := writeActionsGo_ok hash
        ("src/objects/" ++ sanitizeName o.name ++ "/actions") o.actions
        ((writeJSONIfChanged hash st
          ("src/objects/" ++ sanitizeName o.name ++ "/definition.json") b).2)
        n hacts
      obtain ⟨st', n', hgo, hsc⟩ := ih st1 (n + o.actions.length + 1)
        (fun o' ho' => hok o' (List.mem_cons_of_mem o ho'))
      refine ⟨st', n', ?_, ?_⟩
      · simp only [writeObjectsGo, hb, hgo1, hgo]
      · rw [hsc, hsc1, writeJSONIfChanged_saveCount]

/-- A successful `writeObjects` saves the cache exactly once. -/
theorem writeObjects_success (hash : String → String)
    (objects : List ObjectItem) (st : ProjState)
    (hok : ∀ o ∈ objects, (∃ b, o.defSer = .ok b) ∧
        ∀ a ∈ o.actions, ∃ b, a.metaSer = .ok b) :
    (writeObjects hash objects st).1.success = true ∧
    (writeObjects hash objects st).2.saveCount = st.saveCount + 1 := by
  obtain ⟨st', n', hgo, hsc⟩ := writeObjectsGo_ok hash objects st 0 hok
  unfold writeObjects
  rw [hgo]
  exact ⟨rfl, by simp [saveCache, hsc]⟩

/-- **C6 (amended).**  A pull run persists the hash cache once per
category-write call — after that category's items, independently of how
many items each category has — so a completed run over the four categories
saves it four times (three when there are no objects, whose write is then
skipped), not exactly once per run. -/
theorem pullRun_saves_once_per_category (hash : String → String)
    (objects : List ObjectItem) (scripts reports pages : List CatItem)
    (st : ProjState)
    (hobj : ∀ o ∈ objects, (∃ b, o.defSer = .ok b) ∧
        ∀ a ∈ o.actions, ∃ b, a.metaSer = .ok b)
    (hsc : ∀ it ∈ scripts, ∃ b, it.metaSer = .ok b)
    (hrp : ∀ it ∈ reports, ∃ b, it.metaSer = .ok b)
    (hpg : ∀ it ∈ pages, ∃ b, it.metaSer = .ok b) :
    (pullRun hash objects scripts reports pages st).2 = true ∧
    (pullRun hash objects scripts reports pages st).1.saveCount =
      st.saveCount + (if objects.isEmpty then 3 else 4) := by
  obtain ⟨hob1, hob2⟩ := writeObjects_success hash objects st hobj
  unfold pullRun
  by_cases hoe : objects.isEmpty
  · obtain ⟨hs1, hc1⟩ := writeCategory_success hash "src/backend" ".js"
      "Failed to write backend scripts: " scripts st hsc
    obtain ⟨hs2, hc2⟩ := writeCategory_success hash "src/reports" ".sql"
      "Failed to write reports: " reports
      (writeBackendScripts hash scripts st).2 hrp
    obtain ⟨hs3, hc3⟩ := writeCategory_success hash "src/pages" ".html"
      "Failed to write pages: " pages
      (writeReports hash reports (writeBackendScripts hash scripts st).2).2
      hpg
    simp only [hoe, if_pos, if_true]
    unfold writeBackendScripts at *
    unfold writeReports at *
    unfold writePages at *
    simp [hs1, hs2, hs3, hc1, hc2, hc3]
  · obtain ⟨hs1, hc1⟩ := writeCategory_success hash "src/backend" ".js"
      "Failed to write backend scripts: " scripts
      (writeObjects hash objects st).2 hsc
    obtain ⟨hs2, hc2⟩ := writeCategory_success hash "src/reports" ".sql"
      "Failed to write reports: " reports
      (writeBackendScripts hash scripts (writeObjects hash objects st).2).2
      hrp
    obtain ⟨hs3, hc3⟩ := writeCategory_success hash "src/pages" ".html"
      "Failed to write pages: " pages
      (writeReports hash reports
        (writeBackendScripts hash scripts
          (writeObjects hash objects st).2).2).2 hpg
    simp only [hoe, if_neg, if_false, Bool.false_eq_true]
    unfold writeBackendScripts at *
    unfold writeReports at *
    unfold writePages at *
    simp [hob1, hob2, hs1, hs2, hs3, hc1, hc2, hc3]

/-- **C6 (counterexample).**  A completed pull run over one object and
three empty categories persists the cache four times, not exactly once. -/
theorem pullRun_save_count_cex :
    (pullRun id [{ name := "T", defSer := Except.ok "null", actions := [] }]
      [] [] [] initialState).2 = true ∧
    (pullRun id [{ name := "T", defSer := Except.ok "null", actions := [] }]
      [] [] [] initialState).1.saveCount = 4 ∧
    ¬ ((pullRun id
      [{ name := "T", defSer := Except.ok "null", actions := [] }]
      [] [] [] initialState).1.saveCount = 1) := by
  decide

/-- Witness for `pullRun_saves_once_per_category`: the same concrete run,
derived from the general theorem. -/
theorem pullRun_saves_once_per_category_witness :
    (pullRun id [{ name := "T", defSer := Except.ok "null", actions := [] }]
      [] [] [] initialState).2 = true ∧
    (pullRun id [{ name := "T", defSer := Except.ok "null", actions := [] }]
      [] [] [] initialState).1.saveCount = 0 + 4 := by
  have h := pullRun_saves_once_per_category id
    [{ name := "T", defSer := Except.ok "null", actions := [] }] [] [] []
    initialState
    (fun o ho => by
      rw [List.mem_singleton] at ho
      subst ho
      exact ⟨⟨"null", rfl⟩, fun a ha => absurd ha (List.not_mem_nil a)⟩)
    (fun it hi => absurd hi (List.not_mem_nil it))
    (fun it hi => absurd hi (List.not_mem_nil it))
    (fun it hi => absurd hi (List.not_mem_nil it))
  exact ⟨h.1, h.2⟩

/-! ## What the change-detection scan enumerates -/

mutual

theorem scanEntry_spec (pfx : String) : (e : Entry) →
    scanEntry pfx e =
      ((allEntry pfx e).filter (fun pn => pn.2 ≠ ".gitignore")).map Prod.fst
  | .file name => by
      by_cases h : name = ".gitignore" <;> simp [scanEntry, allEntry, h]
  | .dir name children => by
      simp only [scanEntry, allEntry]
      exact scanEntries_spec (pfx ++ "/" ++ name) children

theorem scanEntries_spec (pfx : String) : (ts : List Entry) →
    scanEntries pfx ts =
      ((allEntries pfx ts).filter
        (fun pn => pn.2 ≠ ".gitignore")).map Prod.fst
  | [] => rfl
  | e :: rest => by
      simp only [scanEntries, allEntries, List.filter_append,
        List.map_append]
      rw [scanEntry_spec pfx e, scanEntries_spec pfx rest]

end

/-- **C8 (amended).**  The enumeration feeding `getChanges` skips only the
file named exactly `.gitignore`: it produces precisely the paths of all
regular files whose own name differs from `.gitignore` — in particular
every other hidden/dot file is enumerated and classified normally. -/
theorem scan_skips_only_gitignore (pfx : String) (ts : List Entry) :
    scanEntries pfx ts =
      ((allEntries pfx ts).filter
        (fun pn => pn.2 ≠ ".gitignore")).map Prod.fst :=
  scanEntries_spec pfx ts

/-- **C8 (counterexample).**  A hidden file `.env` under `src/objects` is
enumerated by the scan and, with an empty cache, lands in the `new` bucket
of the Change Report — contrary to the claim that a file whose name begins
with `.` appears in no bucket. -/
theorem getChanges_dotfile_cex :
    scanEntries "src/objects" [Entry.file ".env"] = ["src/objects/.env"] ∧
    startsWithStr ".env" "." = true ∧
    ("objects", "src/objects/.env") ∈
      (getChangesScan id [] (fun _ => some "X")
        [Entry.file ".env"] [] [] []).new := by
  decide

/-! ## The name sanitizer agrees with its specification -/

theorem lowerKeep_ne_dash (c : Char) (h : lowerKeep c = true) : c ≠ '-' := by
  intro hc
  subst hc
  revert h
  decide

/-- Dashing every non-kept character and then collapsing dash runs is the
same as collapsing non-alphanumeric runs directly. -/
theorem collapse_bridge : ∀ l : List Char,
    cdMain (l.map dashify) = collapseSpec l ∧
    cdSkip (l.map dashify) = afterDash l := by
  intro l
  induction l with
  | nil => exact ⟨rfl, rfl⟩
  | cons c rest ih =>
      by_cases h : lowerKeep c = true
      · have hcd : dashify c = c := by simp [dashify, h]
        have hnd : ¬(c = '-') := lowerKeep_ne_dash c h
        refine ⟨?_, ?_⟩
        · simp only [List.map_cons, hcd, cdMain, collapseSpec]
          rw [if_neg hnd, if_pos h, ih.1]
        · simp only [List.map_cons, hcd, cdSkip, afterDash]
          rw [if_neg hnd, if_pos h, ih.1]
      · have hcd : dashify c = '-' := by
          simp only [dashify]
          rw [if_neg h]
        refine ⟨?_, ?_⟩
        · simp only [List.map_cons, hcd, cdMain, collapseSpec]
          rw [if_pos trivial, if_neg h, ih.2]
        · simp only [List.map_cons, hcd, cdSkip, afterDash]
          rw [if_pos trivial, if_neg h, ih.2]

/-- The collapse never emits two adjacent dashes, and the run-skipping
state never starts its output with a dash. -/
theorem collapse_chain : ∀ l : List Char,
    List.Chain' (fun a b : Char => a ≠ '-' ∨ b ≠ '-') (collapseSpec l) ∧
    List.Chain' (fun a b : Char => a ≠ '-' ∨ b ≠ '-') (afterDash l) ∧
    (∀ c cs, afterDash l = c :: cs → c ≠ '-') := by
  intro l
  induction l with
  | nil =>
      refine ⟨List.chain'_nil, List.chain'_nil, ?_⟩
      intro c cs h
      simp [afterDash] at h
  | cons c rest ih =>
      obtain ⟨ih1, ih2, ih3⟩ := ih
      by_cases h : lowerKeep c = true
      · have hnd : ¬(c = '-') := lowerKeep_ne_dash c h
        have hmain : List.Chain' (fun a b : Char => a ≠ '-' ∨ b ≠ '-')
            (c :: collapseSpec rest) :=
          List.chain'_cons'.mpr ⟨fun b _ => Or.inl hnd, ih1⟩
        refine ⟨?_, ?_, ?_⟩
        · simp only [collapseSpec]
          rw [if_pos h]
          exact hmain
        · simp only [afterDash]
          rw [if_pos h]
          exact hmain
        · intro d ds hd
          simp only [afterDash] at hd
          rw [if_pos h] at hd
          cases hd
          exact hnd
      · refine ⟨?_, ?_, ?_⟩
        · simp only [collapseSpec]
          rw [if_neg h]
          refine List.chain'_cons'.mpr ⟨?_, ih2⟩
          intro b hb
          right
          cases had : afterDash rest with
          | nil =>
              rw [had] at hb
              simp at hb
          | cons d ds =>
              rw [had] at hb
              have hbd : d = b := by simpa using hb
              subst hbd
              exact ih3 d ds had
        · simp only [afterDash]
          rw [if_neg h]
          exact ih2
        · intro d ds hd
          simp only [afterDash] at hd
          rw [if_neg h] at hd
          exact ih3 d ds hd

/-- On a list without adjacent dashes, dropping all leading dashes drops
at most one. -/
theorem dropWhile_dash_of_chain (l : List Char)
    (h : List.Chain' (fun a b : Char => a ≠ '-' ∨ b ≠ '-') l) :
    l.dropWhile dashBool = dropOneDash l := by
  cases l with
  | nil => rfl
  | cons c cs =>
      by_cases hc : c = '-'
      · subst hc
        have hhead := (List.chain'_cons'.mp h).1
        have h1 : List.dropWhile dashBool cs = cs := by
          cases cs with
          | nil => rfl
          | cons d ds =>
              have hd : d ≠ '-' := by
                rcases hhead d (by simp) with h' | h'
                · exact absurd rfl h'
                · exact h'
              have hdb : dashBool d = false := by
                simp [dashBool, hd]
              simp [List.dropWhile_cons, hdb]
        have h2 : List.dropWhile dashBool ('-' :: cs) =
            List.dropWhile dashBool cs := by
          simp [List.dropWhile_cons, dashBool]
        rw [h2, h1]
        simp [dropOneDash]
      · have hdb : dashBool c = false := by
          simp [dashBool, hc]
        simp [List.dropWhile_cons, hdb, dropOneDash, hc]

theorem chain'_dropOneDash (l : List Char)
    (h : List.Chain' (fun a b : Char => a ≠ '-' ∨ b ≠ '-') l) :
    List.Chain' (fun a b : Char => a ≠ '-' ∨ b ≠ '-') (dropOneDash l) := by
  cases l with
  | nil => exact h
  | cons c cs =>
      simp only [dropOneDash]
      split
      · exact h.tail
      · exact h

theorem chain'_reverse_dash (l : List Char)
    (h : List.Chain' (fun a b : Char => a ≠ '-' ∨ b ≠ '-') l) :
    List.Chain' (fun a b : Char => a ≠ '-' ∨ b ≠ '-') l.reverse := by
  rw [List.chain'_reverse]
  exact List.Chain'.imp (fun a b hab => Or.symm hab) h

/-- On a list without adjacent dashes, stripping one dash from each end
(the source) equals stripping all leading and trailing dashes (the
spec). -/
theorem stripEnds_eq_stripAll (l : List Char)
    (h : List.Chain' (fun a b : Char => a ≠ '-' ∨ b ≠ '-') l) :
    stripEnds l = stripAll l := by
  unfold stripEnds stripAll
  rw [dropWhile_dash_of_chain l h,
    dropWhile_dash_of_chain (dropOneDash l).reverse
      (chain'_reverse_dash _ (chain'_dropOneDash l h))]

/-- **C9.**  The sanitized file name used during pull equals the spec's
description of it: lower-case the name, collapse every maximal run of
non-alphanumeric characters into a single hyphen, and strip the leading
and trailing hyphens.  Both sides are functions of the name alone, so the
same logical name always yields the same local file path. -/
theorem sanitizeName_matches_spec (s : String) :
    sanitizeName s = sanitizeNameSpec s := by
  unfold sanitizeName sanitizeNameSpec
  congr 1
  rw [(collapse_bridge (s.toList.map Char.toLower)).1]
  exact stripEnds_eq_stripAll _ (collapse_chain (s.toList.map Char.toLower)).1

/-! ## The conditional-write decision consults only the cache -/

/-- **C10.**  The conditional-write decision depends only on the in-memory
cache, never on the disk: when the cached digest of `p` equals
`hash C`, `writeFileIfChanged` returns `false` and changes nothing —
including when no file exists at `p` (the file tree component of the state
is arbitrary, so an externally deleted file is not restored by re-pulling
identical content); and the returned flag is the same for any two states
sharing the same cache, whatever their file trees. -/
theorem writeFileIfChanged_cache_only (hash : String → String)
    (st : ProjState) (p C : String)
    (h : assocLookup st.hashes p = some (hash C)) :
    writeFileIfChanged hash st p C = (false, st) ∧
    (∀ (fs1 fs2 hashes : List (String × String)) (sc1 sc2 : Nat),
      (writeFileIfChanged hash
        { fs := fs1, hashes := hashes, saveCount := sc1 } p C).1 =
      (writeFileIfChanged hash
        { fs := fs2, hashes := hashes, saveCount := sc2 } p C).1) := by
  constructor
  · exact writeFileIfChanged_of_false hash st p C
      ((shouldWriteFile_eq_false_iff hash st.hashes p C).mpr h)
  · intro fs1 fs2 hashes sc1 sc2
    by_cases hw : shouldWriteFile hash hashes p C = true <;>
      simp [writeFileIfChanged, hw]

/-- Witness for `writeFileIfChanged_cache_only`: the cache remembers `X`
at `src/a.json` while the disk is empty; re-writing `X` is refused and the
state — including the empty tree — is untouched. -/
theorem writeFileIfChanged_cache_only_witness :
    writeFileIfChanged id
      { fs := [], hashes := [("src/a.json", "X")], saveCount := 0 }
      "src/a.json" "X" =
      (false,
       { fs := [], hashes := [("src/a.json", "X")], saveCount := 0 }) :=
  (writeFileIfChanged_cache_only id
    { fs := [], hashes := [("src/a.json", "X")], saveCount := 0 }
    "src/a.json" "X" (by decide)).1

end BizSync
